import Mathlib

/-!
Verification of the memory-handle model and dispatch-channel contract of the
`cubecl-runtime` storage layer (`crates/cubecl-runtime/src/storage/base.rs` and
`crates/cubecl-runtime/src/channel/base.rs`).

The Rust code works on `usize` values; we embed them as `Nat` together with the
release-mode wrapping semantics of `usize` arithmetic, written explicitly as
reduction modulo `2 ^ 64`.  A handle whose region fits in the address space
(`bound < USIZE`) never triggers the wrap on a well-formed call, which is the
hypothesis the functional-correctness theorems carry.
-/

set_option autoImplicit false

/-- The modulus of `usize` arithmetic on a 64-bit target. -/
def USIZE : Nat := 2 ^ 64

/-- Release-mode wrapping addition of two `usize` values. -/
def wrapAdd (a b : Nat) : Nat := (a + b) % USIZE

/-- Release-mode wrapping subtraction of two `usize` values. -/
def wrapSub (a b : Nat) : Nat := (a + (USIZE - b % USIZE)) % USIZE

/-- `StorageId` (generated by `storage_id_type!`): an opaque, copyable,
comparable identity for one physical allocation. -/
structure StorageId where
  value : Nat
deriving DecidableEq, Repr

/-- `StorageUtilization`: whether data uses a full memory chunk or a slice of it. -/
inductive StorageUtilization where
  /-- Full memory chunk of specified size. -/
  | Full (size : Nat)
  /-- Slice of memory chunk with start index and size. -/
  | Slice (offset : Nat) (size : Nat)
deriving DecidableEq, Repr

/-- `StorageHandle`: the storage id of a resource and the way it is used. -/
structure StorageHandle where
  id : StorageId
  utilization : StorageUtilization
deriving DecidableEq, Repr

/-- `StorageHandle::size`: the size the handle is pointing to in memory. -/
def StorageHandle.size (h : StorageHandle) : Nat :=
  match h.utilization with
  | .Full size => size
  | .Slice _ size => size

/-- `StorageHandle::offset`: the offset of the handle.  The Rust function
panics on a `Full` utilization (`panic!("full size slice not supported
anymore")`); the panic is embedded as `none`. -/
def StorageHandle.offset (h : StorageHandle) : Option Nat :=
  match h.utilization with
  | .Full _ => none
  | .Slice offset _ => some offset

/-- `StorageHandle::offset_start`: increase the current offset with the given
value in bytes.  The Rust body subtracts `offset_bytes` from the size and adds
it to the offset with plain unchecked `usize` arithmetic, embedded here with
its wrapping semantics. -/
def StorageHandle.offset_start (h : StorageHandle) (offset_bytes : Nat) : StorageHandle :=
  match h.utilization with
  | .Full size =>
      ⟨h.id, .Slice offset_bytes (wrapSub size offset_bytes)⟩
  | .Slice offset size =>
      ⟨h.id, .Slice (wrapAdd offset offset_bytes) (wrapSub size offset_bytes)⟩

/-- `StorageHandle::offset_end`: reduce the size of the memory handle.  The
Rust body subtracts `offset_bytes` from the size with plain unchecked `usize`
arithmetic, embedded here with its wrapping semantics. -/
def StorageHandle.offset_end (h : StorageHandle) (offset_bytes : Nat) : StorageHandle :=
  match h.utilization with
  | .Full size =>
      ⟨h.id, .Slice 0 (wrapSub size offset_bytes)⟩
  | .Slice offset size =>
      ⟨h.id, .Slice offset (wrapSub size offset_bytes)⟩

/-- The exclusive end of the byte region a handle addresses: `size` for a
`Full` handle, `offset + size` for a `Slice`.  A handle is a well-formed view
into a `usize`-addressed allocation exactly when this fits in the address
space (`bound < USIZE`). -/
def StorageHandle.bound (h : StorageHandle) : Nat :=
  match h.utilization with
  | .Full size => size
  | .Slice offset size => offset + size

/-- Modelled from the spec: the concrete `ComputeChannel` implementations are
not among the sources here (`channel/base.rs` only declares the trait), so the
per-channel submission semantics is modelled from the spec's guarantee that
"submission order is preserved per channel" and that "a `read` observes all
writes previously submitted through this same channel for overlapping
bindings".  A submitted operation either uploads data to a binding (`create`)
or executes a kernel that writes a binding (`executeWrite`). -/
inductive ChannelOp where
  | create (target : StorageId) (data : List Nat)
  | executeWrite (target : StorageId) (data : List Nat)
deriving DecidableEq, Repr

/-- The binding a submitted operation writes. -/
def ChannelOp.target : ChannelOp → StorageId
  | .create t _ => t
  | .executeWrite t _ => t

/-- Modelled from the spec: the device store seen through one channel, mapping
each binding to its current contents. -/
def Store : Type := StorageId → List Nat

/-- Modelled from the spec: applying one submitted operation to the store.
Both `create` and `executeWrite` replace the contents of their target binding. -/
def applyOp (store : Store) : ChannelOp → Store
  | .create t d => fun j => if j = t then d else store j
  | .executeWrite t d => fun j => if j = t then d else store j

/-- Modelled from the spec: a channel applies its submitted operations to the
store in submission order. -/
def runChannel (store : Store) : List ChannelOp → Store
  | [] => store
  | op :: ops => runChannel (applyOp store op) ops

/-- Modelled from the spec: `read(binding)` returns the bytes the store holds
for that binding once the channel has processed the submissions before it. -/
def readBinding (store : Store) (t : StorageId) : List Nat := store t

/- Arithmetic facts about the wrapping embedding, shared by the theorems. -/

theorem USIZE_eq : USIZE = 18446744073709551616 := by norm_num [USIZE]

theorem wrapAdd_eq (a b : Nat) (hab : a + b < USIZE) : wrapAdd a b = a + b := by
  unfold wrapAdd
  exact Nat.mod_eq_of_lt hab

theorem wrapSub_eq (a b : Nat) (ha : a < USIZE) (hba : b ≤ a) : wrapSub a b = a - b := by
  unfold wrapSub
  rw [USIZE_eq] at ha ⊢
  omega

theorem wrapSub_self (a : Nat) (ha : a < USIZE) : wrapSub a a = 0 := by
  rw [wrapSub_eq a a ha (Nat.le_refl a), Nat.sub_self]

/- Facts about the channel model, shared by the theorems. -/

theorem applyOp_other (store : Store) (op : ChannelOp) (t : StorageId)
    (h : op.target ≠ t) : applyOp store op t = store t := by
  cases op with
  | create t0 d =>
      simp only [ChannelOp.target] at h
      show (if t = t0 then d else store t) = store t
      rw [if_neg fun hc => h hc.symm]
  | executeWrite t0 d =>
      simp only [ChannelOp.target] at h
      show (if t = t0 then d else store t) = store t
      rw [if_neg fun hc => h hc.symm]

theorem runChannel_append (store : Store) (l1 l2 : List ChannelOp) :
    runChannel store (l1 ++ l2) = runChannel (runChannel store l1) l2 := by
  induction l1 generalizing store with
  | nil => simp [runChannel]
  | cons op ops ih => simp [runChannel, ih]

theorem runChannel_untouched (store : Store) (ops : List ChannelOp) (t : StorageId)
    (h : ∀ op ∈ ops, op.target ≠ t) : runChannel store ops t = store t := by
  induction ops generalizing store with
  | nil => rfl
  | cons op rest ih =>
      show runChannel (applyOp store op) rest t = store t
      rw [ih (applyOp store op) fun o ho => h o (List.mem_cons_of_mem op ho)]
      exact applyOp_other store op t (h op (List.mem_cons_self op rest))

/-- Claim C1: the claim says `offset_start(n)`/`offset_end(n)` with
`n > h.size()` reject the call or check `offset_bytes <= size` before
subtracting, and that the derived size never exceeds the remaining bytes.
The code performs the bare `size - offset_bytes` with no check: under the
release-mode wrapping semantics of `usize`, a `Full(10)` handle offset by 11
yields a slice of size `2^64 - 1`, far exceeding the 10 remaining bytes
(debug builds abort inside the subtraction itself, not before it).  This
theorem evaluates the code at that failing input. -/
theorem offset_underflow_unchecked :
    ((StorageHandle.mk ⟨0⟩ (.Full 10)).offset_start 11).size = 2 ^ 64 - 1 ∧
    ((StorageHandle.mk ⟨0⟩ (.Full 10)).offset_end 11).size = 2 ^ 64 - 1 ∧
    (StorageHandle.mk ⟨0⟩ (.Full 10)).size
      < ((StorageHandle.mk ⟨0⟩ (.Full 10)).offset_start 11).size := by
  refine ⟨?_, ?_, ?_⟩ <;> decide

/-- Claim C4: `offset()` returns the offset of a `Slice` handle and fails
fatally (a panic, embedded as `none`) on a `Full` handle. -/
theorem offset_partial (i : StorageId) (o s : Nat) :
    (StorageHandle.mk i (.Slice o s)).offset = some o ∧
    (StorageHandle.mk i (.Full s)).offset = none :=
  ⟨rfl, rfl⟩

/-- Claim C5: `size()` is a total pure function of the utilization variant,
returning `s` on `Full s` and `size` on `Slice {offset, size}`; totality is
witnessed by `StorageHandle.size` being a total Lean function. -/
theorem size_total (i : StorageId) (o s : Nat) :
    (StorageHandle.mk i (.Full s)).size = s ∧
    (StorageHandle.mk i (.Slice o s)).size = s :=
  ⟨rfl, rfl⟩

/-- Claim C7: `offset_start` and `offset_end` return handles carrying the same
`StorageId` as the source handle, for every offset argument; both are pure
functions of the handle (the embedding takes `h` by value and returns a new
handle, mutating nothing). -/
theorem derive_preserves_id (h : StorageHandle) (n : Nat) :
    (h.offset_start n).id = h.id ∧ (h.offset_end n).id = h.id := by
  obtain ⟨i, u⟩ := h
  cases u <;> exact ⟨rfl, rfl⟩

/-- Claim C2: on a well-formed handle with `n ≤ h.size()`, `h.offset_start(n)`
has size `h.size() - n`; a `Full s` source yields `Slice {offset: n, size: s - n}`
and a `Slice {offset: o, size: s}` source yields
`Slice {offset: o + n, size: s - n}`. -/
theorem offset_start_correct (h : StorageHandle) (n : Nat)
    (hwf : h.bound < USIZE) (hn : n ≤ h.size) :
    (h.offset_start n).size = h.size - n ∧
    (∀ s, h.utilization = .Full s →
      (h.offset_start n).utilization = .Slice n (s - n)) ∧
    (∀ o s, h.utilization = .Slice o s →
      (h.offset_start n).utilization = .Slice (o + n) (s - n)) := by
  obtain ⟨i, u⟩ := h
  cases u with
  | Full s =>
      simp only [StorageHandle.bound] at hwf
      simp only [StorageHandle.size] at hn
      simp only [StorageHandle.offset_start, StorageHandle.size]
      rw [wrapSub_eq s n hwf hn]
      refine ⟨rfl, ?_, ?_⟩
      · intro s2 hs
        injection hs with h1
        subst h1
        rfl
      · intro o s2 hs
        simp at hs
  | Slice o s =>
      simp only [StorageHandle.bound] at hwf
      simp only [StorageHandle.size] at hn
      simp only [StorageHandle.offset_start, StorageHandle.size]
      rw [wrapSub_eq s n (by omega) hn, wrapAdd_eq o n (by omega)]
      refine ⟨rfl, ?_, ?_⟩
      · intro s2 hs
        simp at hs
      · intro o2 s2 hs
        injection hs with h1 h2
        subst h1
        subst h2
        rfl

/-- Witness for claim C2 at the spec's concrete scenario `Full(1024)`,
`offset_start(100)`. -/
theorem offset_start_correct_witness :
    ((StorageHandle.mk ⟨0⟩ (.Full 1024)).offset_start 100).size
      = (StorageHandle.mk ⟨0⟩ (.Full 1024)).size - 100 :=
  (offset_start_correct ⟨⟨0⟩, .Full 1024⟩ 100 (by decide) (by decide)).1

/-- Claim C3: on a well-formed handle with `n ≤ h.size()`, `h.offset_end(n)`
has size `h.size() - n` and is a `Slice` keeping the source's starting
position: offset `0` when the source was `Full s`, offset `o` when the source
was `Slice {offset: o, size: s}`. -/
theorem offset_end_correct (h : StorageHandle) (n : Nat)
    (hwf : h.bound < USIZE) (hn : n ≤ h.size) :
    (h.offset_end n).size = h.size - n ∧
    (∀ s, h.utilization = .Full s →
      (h.offset_end n).utilization = .Slice 0 (s - n)) ∧
    (∀ o s, h.utilization = .Slice o s →
      (h.offset_end n).utilization = .Slice o (s - n)) := by
  obtain ⟨i, u⟩ := h
  cases u with
  | Full s =>
      simp only [StorageHandle.bound] at hwf
      simp only [StorageHandle.size] at hn
      simp only [StorageHandle.offset_end, StorageHandle.size]
      rw [wrapSub_eq s n hwf hn]
      refine ⟨rfl, ?_, ?_⟩
      · intro s2 hs
        injection hs with h1
        subst h1
        rfl
      · intro o s2 hs
        simp at hs
  | Slice o s =>
      simp only [StorageHandle.bound] at hwf
      simp only [StorageHandle.size] at hn
      simp only [StorageHandle.offset_end, StorageHandle.size]
      rw [wrapSub_eq s n (by omega) hn]
      refine ⟨rfl, ?_, ?_⟩
      · intro s2 hs
        simp at hs
      · intro o2 s2 hs
        injection hs with h1 h2
        subst h1
        subst h2
        rfl

/-- Witness for claim C3 at the spec's concrete scenario `Slice{100, 924}`,
`offset_end(24)`. -/
theorem offset_end_correct_witness :
    ((StorageHandle.mk ⟨0⟩ (.Slice 100 924)).offset_end 24).size
      = (StorageHandle.mk ⟨0⟩ (.Slice 100 924)).size - 24 :=
  (offset_end_correct ⟨⟨0⟩, .Slice 100 924⟩ 24 (by decide) (by decide)).1

/-- Claim C6: on a well-formed handle with `a + b ≤ h.size()`, successive
front offsets compose additively: `h.offset_start(a).offset_start(b)` is the
same handle as `h.offset_start(a + b)` (hence equal in offset and size). -/
theorem offset_start_compose (h : StorageHandle) (a b : Nat)
    (hwf : h.bound < USIZE) (hab : a + b ≤ h.size) :
    (h.offset_start a).offset_start b = h.offset_start (a + b) := by
  obtain ⟨i, u⟩ := h
  cases u with
  | Full s =>
      simp only [StorageHandle.bound] at hwf
      simp only [StorageHandle.size] at hab
      simp only [StorageHandle.offset_start]
      rw [wrapSub_eq s a hwf (by omega),
          wrapSub_eq (s - a) b (by omega) (by omega),
          wrapAdd_eq a b (by omega),
          wrapSub_eq s (a + b) hwf hab,
          Nat.sub_sub]
  | Slice o s =>
      simp only [StorageHandle.bound] at hwf
      simp only [StorageHandle.size] at hab
      simp only [StorageHandle.offset_start]
      rw [wrapAdd_eq o a (by omega),
          wrapSub_eq s a (by omega) (by omega),
          wrapAdd_eq (o + a) b (by omega),
          wrapSub_eq (s - a) b (by omega) (by omega),
          wrapAdd_eq o (a + b) (by omega),
          wrapSub_eq s (a + b) (by omega) hab,
          Nat.add_assoc, Nat.sub_sub]

/-- Witness for claim C6 at `Full(1024)` with `a = 100`, `b = 24`. -/
theorem offset_start_compose_witness :
    ((StorageHandle.mk ⟨0⟩ (.Full 1024)).offset_start 100).offset_start 24
      = (StorageHandle.mk ⟨0⟩ (.Full 1024)).offset_start (100 + 24) :=
  offset_start_compose ⟨⟨0⟩, .Full 1024⟩ 100 24 (by decide) (by decide)

/-- Claim C9: offsetting a well-formed handle by its whole size succeeds (no
failure in the embedding, and no `usize` underflow since `size - size = 0`) and
yields zero-size slices with the same id: `offset_start(h.size())` gives a
`Slice` at the end of `h`'s region (offset `= h`'s start `+ h.size()`, which is
`h.bound`) and `offset_end(h.size())` gives a `Slice` of size 0 at `h`'s start
(offset 0 for a `Full` source, `o` for a `Slice` source). -/
theorem offset_by_full_size (h : StorageHandle) (hwf : h.bound < USIZE) :
    (h.offset_start h.size).id = h.id ∧
    (h.offset_end h.size).id = h.id ∧
    (h.offset_start h.size).utilization = .Slice h.bound 0 ∧
    (∀ s, h.utilization = .Full s →
      (h.offset_end h.size).utilization = .Slice 0 0) ∧
    (∀ o s, h.utilization = .Slice o s →
      (h.offset_end h.size).utilization = .Slice o 0) := by
  obtain ⟨i, u⟩ := h
  cases u with
  | Full s =>
      simp only [StorageHandle.bound] at hwf ⊢
      simp only [StorageHandle.size, StorageHandle.offset_start,
        StorageHandle.offset_end]
      rw [wrapSub_self s hwf]
      refine ⟨trivial, trivial, rfl, ?_, ?_⟩
      · intro s2 hs
        rfl
      · intro o2 s2 hs
        simp at hs
  | Slice o s =>
      simp only [StorageHandle.bound] at hwf ⊢
      simp only [StorageHandle.size, StorageHandle.offset_start,
        StorageHandle.offset_end]
      rw [wrapSub_self s (by omega), wrapAdd_eq o s hwf]
      refine ⟨trivial, trivial, rfl, ?_, ?_⟩
      · intro s2 hs
        simp at hs
      · intro o2 s2 hs
        injection hs with h1 h2
        subst h1
        rfl

/-- Witness for claim C9 at `Slice{100, 924}`. -/
theorem offset_by_full_size_witness :
    ((StorageHandle.mk ⟨0⟩ (.Slice 100 924)).offset_start
        (StorageHandle.mk ⟨0⟩ (.Slice 100 924)).size).utilization
      = .Slice (StorageHandle.mk ⟨0⟩ (.Slice 100 924)).bound 0 :=
  (offset_by_full_size ⟨⟨0⟩, .Slice 100 924⟩ (by decide)).2.2.1

/-- Claim C10: on a well-formed handle with `a + b ≤ h.size()`, shrinking from
the front and from the back commute: `h.offset_start(a).offset_end(b)` is the
same handle as `h.offset_end(b).offset_start(a)` (hence equal in id, offset and
size). -/
theorem offset_start_end_commute (h : StorageHandle) (a b : Nat)
    (hwf : h.bound < USIZE) (hab : a + b ≤ h.size) :
    (h.offset_start a).offset_end b = (h.offset_end b).offset_start a := by
  obtain ⟨i, u⟩ := h
  cases u with
  | Full s =>
      simp only [StorageHandle.bound] at hwf
      simp only [StorageHandle.size] at hab
      simp only [StorageHandle.offset_start, StorageHandle.offset_end]
      rw [wrapSub_eq s a hwf (by omega),
          wrapSub_eq (s - a) b (by omega) (by omega),
          wrapSub_eq s b hwf (by omega),
          wrapSub_eq (s - b) a (by omega) (by omega),
          wrapAdd_eq 0 a (by omega), Nat.zero_add,
          Nat.sub_sub s a b, Nat.sub_sub s b a, Nat.add_comm b a]
  | Slice o s =>
      simp only [StorageHandle.bound] at hwf
      simp only [StorageHandle.size] at hab
      simp only [StorageHandle.offset_start, StorageHandle.offset_end]
      rw [wrapSub_eq s a (by omega) (by omega),
          wrapSub_eq (s - a) b (by omega) (by omega),
          wrapSub_eq s b (by omega) (by omega),
          wrapSub_eq (s - b) a (by omega) (by omega),
          Nat.sub_sub s a b, Nat.sub_sub s b a, Nat.add_comm b a]

/-- Witness for claim C10 at `Full(1024)` with `a = 100`, `b = 24`. -/
theorem offset_start_end_commute_witness :
    ((StorageHandle.mk ⟨0⟩ (.Full 1024)).offset_start 100).offset_end 24
      = ((StorageHandle.mk ⟨0⟩ (.Full 1024)).offset_end 24).offset_start 100 :=
  offset_start_end_commute ⟨⟨0⟩, .Full 1024⟩ 100 24 (by decide) (by decide)

/-- Claim C8 (modelled from the spec, as the concrete channel implementations
are not among the sources): on a single channel that processes submissions in
order, a `read` of a binding observes every write previously submitted through
that channel for that binding.  In particular, after any earlier submissions
`pre`, a `create` uploading `up` to binding `t`, unrelated submissions `mid`,
an `executeWrite` writing `wr` to `t`, and further unrelated submissions
`post`, reading `t` returns the post-execute contents `wr`, not the
pre-execute upload `up`. -/
theorem read_observes_channel_order (store : Store) (pre mid post : List ChannelOp)
    (t : StorageId) (up wr : List Nat)
    (_hmid : ∀ op ∈ mid, op.target ≠ t)
    (hpost : ∀ op ∈ post, op.target ≠ t) :
    readBinding
      (runChannel store
        (pre ++ (ChannelOp.create t up ::
          (mid ++ (ChannelOp.executeWrite t wr :: post)))))
      t = wr := by
  have hsplit : pre ++ (ChannelOp.create t up ::
      (mid ++ (ChannelOp.executeWrite t wr :: post)))
      = ((pre ++ (ChannelOp.create t up :: mid)) ++ [ChannelOp.executeWrite t wr]) ++ post := by
    simp
  rw [hsplit, runChannel_append, readBinding, runChannel_untouched _ post t hpost,
    runChannel_append]
  show applyOp (runChannel store (pre ++ (ChannelOp.create t up :: mid)))
      (ChannelOp.executeWrite t wr) t = wr
  simp [applyOp]

/-- Witness for claim C8: a concrete channel log with one unrelated submission
between the upload and the execute, and one after it. -/
theorem read_observes_channel_order_witness :
    readBinding
      (runChannel (fun _ => [])
        ([ChannelOp.create ⟨7⟩ [0]] ++ (ChannelOp.create ⟨0⟩ [1, 2] ::
          ([ChannelOp.create ⟨1⟩ [9]] ++ (ChannelOp.executeWrite ⟨0⟩ [3, 4] ::
            [ChannelOp.executeWrite ⟨2⟩ [8]])))))
      ⟨0⟩ = [3, 4] :=
  read_observes_channel_order (fun _ => []) [ChannelOp.create ⟨7⟩ [0]]
    [ChannelOp.create ⟨1⟩ [9]] [ChannelOp.executeWrite ⟨2⟩ [8]]
    ⟨0⟩ [1, 2] [3, 4] (by decide) (by decide)
